import Mathlib

/-!
Verification development for the token-trust subsystem of the
go-modular-boilerplate repository: JWK key manager (package jwkKeyManager),
JWT utilities (internal/shared/utils/jwt_key_utils.go), auth service
(internal/pkg/auth/service/auth_service.go) with its sqlc repository and SQL
queries (queries/users.sql), the auth middleware (GinAuthenticate) and the
rate-limit middleware (GinRateLimit / GinRateLimitWithOptions with the
in-memory storage backend).

Modelling conventions:
- timestamps are Unix seconds as `Nat`;
- Go maps keyed by strings are association lists; map assignment is
  "filter out the key, then append" (maps are unordered, so list order is
  a representation choice);
- RSA key material and signatures are abstracted: a token records the id of
  the key that signed it (`signer`), and signature verification succeeds
  exactly when the verification key's id equals the signer id;
- the keys directory is assumed to contain exactly one `.pem` file per key
  held by the manager (the manager itself only ever writes such files);
- I/O failures (file writes, key generation) are not modelled: the claims
  concern the success paths and the in-memory/persistent state they produce.
-/

namespace GoAuth

/-! ## JWK key manager (package jwkKeyManager)

`JWKKey` models the Go struct of the same name; private/public key material
is dropped (no claim depends on it), `CreatedAt` is kept as `createdAt`.
In the source the creation time of a loaded key is the file's modification
time, and the sort keys used by `loadExistingKeys` and `CleanupExpiredKeys`
are those same modification times, so one field serves for both. -/

structure JWKKey where
  keyID : String
  createdAt : Nat
  isActive : Bool
deriving DecidableEq

/-- A file in the keys directory as seen by `loadExistingKeys`:
its name (key id), modification time, whether it has the `.pem` suffix,
and whether its contents parse as an RSA private key. -/
structure KeyFile where
  keyID : String
  modTime : Nat
  isPem : Bool
  parsesOK : Bool
deriving DecidableEq

/-- `MaxValidJWKKeys = 5` from the source's constants. -/
def MaxValidJWKKeys : Nat := 5

/-- Ordering used by `loadExistingKeys`: files sorted by modification time,
newest first (`infoI.ModTime().After(infoJ.ModTime())`). -/
def newerFile (a b : KeyFile) : Prop := b.modTime ≤ a.modTime

instance : DecidableRel newerFile := fun a b => Nat.decLe b.modTime a.modTime

instance : IsTotal KeyFile newerFile := ⟨fun a b => Nat.le_total b.modTime a.modTime⟩

instance : IsTrans KeyFile newerFile := ⟨fun _ _ _ h1 h2 => Nat.le_trans h2 h1⟩

/-- Ordering used by `CleanupExpiredKeys`: oldest first
(`infoI.ModTime().Before(infoJ.ModTime())`). -/
def olderKey (a b : JWKKey) : Prop := a.createdAt ≤ b.createdAt

instance : DecidableRel olderKey := fun a b => Nat.decLe a.createdAt b.createdAt

instance : IsTotal JWKKey olderKey := ⟨fun a b => Nat.le_total a.createdAt b.createdAt⟩

instance : IsTrans JWKKey olderKey := ⟨fun _ _ _ h1 h2 => Nat.le_trans h1 h2⟩

/-- One step of the loading loop in `loadExistingKeys`: non-`.pem` files and
files that fail to parse are skipped; a parsed key is stored with
`isActive := len(keys) == 0`, i.e. the first parsed key (newest by the sort)
becomes active. -/
def loadStep (keys : List JWKKey) (f : KeyFile) : List JWKKey :=
  if f.isPem && f.parsesOK then
    keys ++ [⟨f.keyID, f.modTime, keys.isEmpty⟩]
  else keys

/-- `loadExistingKeys`: sort directory entries newest-first, then fold the
loading loop over them starting from the empty key set. -/
def loadExistingKeys (files : List KeyFile) : List JWKKey :=
  (List.insertionSort newerFile files).foldl loadStep []

/-- Number of keys in the store with `IsActive = true`. -/
def countActive (keys : List JWKKey) : Nat :=
  (keys.filter (fun k => k.isActive)).length

/-- `CleanupExpiredKeys`: if the directory holds at most `MaxValidJWKKeys`
files nothing happens; otherwise the files are sorted oldest-first and the
first `len - MaxValidJWKKeys` of them are deleted from disk and from the
in-memory map. The store is modelled as holding exactly the key files, so
the surviving keys are the `MaxValidJWKKeys` newest ones. -/
def CleanupExpiredKeys (keys : List JWKKey) : List JWKKey :=
  if keys.length ≤ MaxValidJWKKeys then keys
  else (List.insertionSort olderKey keys).drop (keys.length - MaxValidJWKKeys)

/-- Key ids are derived from the creation time
(`time.Now().Format("20060102150405")`); the formatting is injective on
distinct seconds, so the model keeps the number itself. -/
def keyIDFromTime (t : Nat) : String := toString t

/-- Go map assignment `km.keys[newKeyID] = jwkKey`: any existing entry under
the same id is replaced. -/
def insertKey (keys : List JWKKey) (k : JWKKey) : List JWKKey :=
  keys.filter (fun k2 => k2.keyID ≠ k.keyID) ++ [k]

/-- `RotateKey` at time `now` (the success path: RSA generation and the file
write succeed): a new active key named after `now` is created, every
existing key is deactivated, the new key is inserted, and
`CleanupExpiredKeys` runs. -/
def RotateKey (keys : List JWKKey) (now : Nat) : List JWKKey :=
  let newKey : JWKKey := ⟨keyIDFromTime now, now, true⟩
  let deactivated := keys.map (fun k => ⟨k.keyID, k.createdAt, false⟩)
  CleanupExpiredKeys (insertKey deactivated newKey)

/-- States of the key manager reachable through the source's operations:
the initial load (also used by the file-watcher reload, which replaces the
map with a fresh `loadExistingKeys` result), a successful rotation at a time
strictly later than every stored key's creation time (the system clock is
monotone and each stored key was created in the past), and a standalone
cleanup (the scheduler's `JWKKeyRotationJob` calls `CleanupExpiredKeys`
directly after `RotateKey`). -/
inductive Reachable : List JWKKey → Prop
  | load (files : List KeyFile) : Reachable (loadExistingKeys files)
  | rotate (keys : List JWKKey) (now : Nat) :
      Reachable keys → (∀ k ∈ keys, k.createdAt < now) → Reachable (RotateKey keys now)
  | cleanup (keys : List JWKKey) : Reachable keys → Reachable (CleanupExpiredKeys keys)

/-! ### Lemmas about the key manager -/

theorem countActive_append (a b : List JWKKey) :
    countActive (a ++ b) = countActive a + countActive b := by
  simp [countActive, List.filter_append]

theorem countActive_loadStep_le (keys : List JWKKey) (f : KeyFile)
    (h : countActive keys ≤ 1) : countActive (loadStep keys f) ≤ 1 := by
  unfold loadStep
  split
  · cases hk : keys with
    | nil => simp [countActive]
    | cons x xs =>
      subst hk
      rw [countActive_append]
      simpa [countActive] using h
  · exact h

theorem countActive_foldl_loadStep_le (files : List KeyFile) (acc : List JWKKey)
    (h : countActive acc ≤ 1) : countActive (files.foldl loadStep acc) ≤ 1 := by
  induction files generalizing acc with
  | nil => simpa using h
  | cons f fs ih => exact ih (loadStep acc f) (countActive_loadStep_le acc f h)

theorem countActive_loadExistingKeys_le (files : List KeyFile) :
    countActive (loadExistingKeys files) ≤ 1 := by
  unfold loadExistingKeys
  exact countActive_foldl_loadStep_le _ [] (by simp [countActive])

theorem countActive_perm {a b : List JWKKey} (h : a.Perm b) :
    countActive a = countActive b := by
  unfold countActive
  exact (h.filter _).length_eq

theorem countActive_sublist {a b : List JWKKey} (h : a.Sublist b) :
    countActive a ≤ countActive b := by
  unfold countActive
  exact (h.filter _).length_le

theorem countActive_cleanup_le (keys : List JWKKey) :
    countActive (CleanupExpiredKeys keys) ≤ countActive keys := by
  unfold CleanupExpiredKeys
  split
  · exact Nat.le_refl _
  · calc countActive ((List.insertionSort olderKey keys).drop
          (keys.length - MaxValidJWKKeys))
        ≤ countActive (List.insertionSort olderKey keys) :=
          countActive_sublist (List.drop_sublist _ _)
      _ = countActive keys := countActive_perm (List.perm_insertionSort _ _)

/-- A key whose creation time is strictly greater than that of every other
stored key survives `CleanupExpiredKeys`: the deleted files are the oldest
`len - MaxValidJWKKeys` by modification time, and the strict-newest key is
never among them. -/
theorem mem_cleanup_of_strict_newest (keys : List JWKKey) (k : JWKKey)
    (hmem : k ∈ keys)
    (hmax : ∀ k2 ∈ keys, k2 ≠ k → k2.createdAt < k.createdAt) :
    k ∈ CleanupExpiredKeys keys := by
  unfold CleanupExpiredKeys
  split
  · exact hmem
  · rename_i hlen
    push_neg at hlen
    set sorted := List.insertionSort olderKey keys with hsorted
    set n := keys.length - MaxValidJWKKeys with hn
    have hperm : sorted.Perm keys := List.perm_insertionSort _ _
    have hks : k ∈ sorted := hperm.mem_iff.mpr hmem
    by_contra hnot
    have hktake : k ∈ sorted.take n := by
      have := (List.take_append_drop n sorted) ▸ hks
      rcases List.mem_append.mp this with h | h
      · exact h
      · exact absurd h hnot
    have hpw : List.Pairwise olderKey sorted := List.sorted_insertionSort _ _
    have hcross : ∀ a ∈ sorted.take n, ∀ b ∈ sorted.drop n, olderKey a b := by
      have := (List.take_append_drop n sorted) ▸ hpw
      exact (List.pairwise_append.mp this).2.2
    have hdroplen : (sorted.drop n).length = MaxValidJWKKeys := by
      rw [List.length_drop, hperm.length_eq, hn,
        Nat.sub_sub_self (Nat.le_of_lt hlen)]
    have hdropne : sorted.drop n ≠ [] := by
      intro h
      rw [h] at hdroplen
      simp [MaxValidJWKKeys] at hdroplen
    rcases List.exists_mem_of_ne_nil _ hdropne with ⟨b, hb⟩
    have hbk : b ≠ k := fun h => hnot (h ▸ hb)
    have hbkeys : b ∈ keys := hperm.mem_iff.mp (List.mem_of_mem_drop hb)
    have hlt : b.createdAt < k.createdAt := hmax b hbkeys hbk
    have hle : k.createdAt ≤ b.createdAt := hcross k hktake b hb
    exact absurd hle (Nat.not_le_of_lt hlt)

theorem countActive_pos_of_mem_active {keys : List JWKKey} {k : JWKKey}
    (hmem : k ∈ keys) (hactive : k.isActive = true) : 1 ≤ countActive keys := by
  unfold countActive
  have : k ∈ keys.filter (fun k => k.isActive) :=
    List.mem_filter.mpr ⟨hmem, by simp [hactive]⟩
  exact List.length_pos.mpr (List.ne_nil_of_mem this)

/-- After a successful rotation at a fresh time, exactly one key is active:
`RotateKey` deactivates every stored key, inserts the fresh active key, and
the embedded cleanup cannot delete the strictly-newest key. -/
theorem countActive_rotate (keys : List JWKKey) (now : Nat)
    (hfresh : ∀ k ∈ keys, k.createdAt < now) :
    countActive (RotateKey keys now) = 1 := by
  unfold RotateKey
  set newKey : JWKKey := ⟨keyIDFromTime now, now, true⟩ with hnew
  set deactivated := keys.map (fun k => (⟨k.keyID, k.createdAt, false⟩ : JWKKey))
    with hdeact
  have hinactive : ∀ k2 ∈ deactivated, k2.isActive = false := by
    intro k2 hk2
    rw [hdeact] at hk2
    rcases List.mem_map.mp hk2 with ⟨x, _, hx⟩
    rw [← hx]
  have hcountIns : countActive (insertKey deactivated newKey) = 1 := by
    unfold insertKey
    rw [countActive_append]
    have hfilter : countActive (deactivated.filter
        (fun k2 => k2.keyID ≠ newKey.keyID)) = 0 := by
      unfold countActive
      rw [List.length_eq_zero, List.filter_eq_nil_iff]
      intro a ha
      have := hinactive a (List.mem_of_mem_filter ha)
      simp [this]
    rw [hfilter]
    simp [countActive]
  have hle : countActive (CleanupExpiredKeys (insertKey deactivated newKey)) ≤ 1 :=
    hcountIns ▸ countActive_cleanup_le _
  have hmemIns : newKey ∈ insertKey deactivated newKey := by
    unfold insertKey
    exact List.mem_append_right _ (List.mem_singleton.mpr rfl)
  have hmax : ∀ k2 ∈ insertKey deactivated newKey, k2 ≠ newKey →
      k2.createdAt < newKey.createdAt := by
    intro k2 hk2 hne
    unfold insertKey at hk2
    rcases List.mem_append.mp hk2 with h | h
    · have hk2d : k2 ∈ deactivated := List.mem_of_mem_filter h
      rw [hdeact] at hk2d
      rcases List.mem_map.mp hk2d with ⟨x, hx, hxe⟩
      have : k2.createdAt = x.createdAt := by rw [← hxe]
      rw [this]
      exact hfresh x hx
    · exact absurd (List.mem_singleton.mp h) hne
  have hmemClean : newKey ∈ CleanupExpiredKeys (insertKey deactivated newKey) :=
    mem_cleanup_of_strict_newest _ _ hmemIns hmax
  have hge : 1 ≤ countActive (CleanupExpiredKeys (insertKey deactivated newKey)) :=
    countActive_pos_of_mem_active hmemClean rfl
  exact Nat.le_antisymm hle hge

/-- C4: after any sequence of `rotate()` calls on the key manager, starting
from the loaded key set, exactly one key in the store has `active = true`
(first conjunct: any state reached by a nonempty rotation history ends in a
`RotateKey`, and `countActive` of a rotation result is `1`); more generally,
at most one key is active in every reachable state (second conjunct). -/
theorem claim_C4_at_most_one_active_key :
    (∀ keys now, (∀ k ∈ keys, k.createdAt < now) →
      countActive (RotateKey keys now) = 1) ∧
    (∀ keys, Reachable keys → countActive keys ≤ 1) := by
  refine ⟨countActive_rotate, ?_⟩
  intro keys h
  induction h with
  | load files => exact countActive_loadExistingKeys_le files
  | rotate keys now _ hfresh _ =>
    exact Nat.le_of_eq (countActive_rotate keys now hfresh)
  | cleanup keys _ ih => exact Nat.le_trans (countActive_cleanup_le keys) ih

/-- Witness for C4: a concrete rotation on the empty store yields exactly one
active key, and a concrete load yields at most one. -/
theorem claim_C4_witness :
    countActive (RotateKey [] 1) = 1 ∧
    countActive (loadExistingKeys [⟨"a", 3, true, true⟩, ⟨"b", 7, true, true⟩]) ≤ 1 :=
  ⟨claim_C4_at_most_one_active_key.1 [] 1 (by simp),
   claim_C4_at_most_one_active_key.2 _ (Reachable.load _)⟩

/-- C5: after `CleanupExpiredKeys` (retention count `MaxValidJWKKeys = 5`)
the store holds at most 5 keys, the deleted keys are the oldest ones by
creation time, and the active key — which in every state the manager
produces has a strictly greater creation time than all other keys — is never
deleted. -/
theorem claim_C5_cleanup_retention (keys : List JWKKey) (k : JWKKey)
    (hmem : k ∈ keys) (hactive : k.isActive = true)
    (hmax : ∀ k2 ∈ keys, k2 ≠ k → k2.createdAt < k.createdAt) :
    (CleanupExpiredKeys keys).length ≤ MaxValidJWKKeys ∧
    k ∈ CleanupExpiredKeys keys ∧
    (∀ r ∈ keys, r ∉ CleanupExpiredKeys keys →
      ∀ s ∈ CleanupExpiredKeys keys, r.createdAt ≤ s.createdAt) := by
  refine ⟨?_, mem_cleanup_of_strict_newest keys k hmem hmax, ?_⟩
  · unfold CleanupExpiredKeys
    split
    · assumption
    · rename_i hlen
      push_neg at hlen
      rw [List.length_drop, (List.perm_insertionSort olderKey keys).length_eq,
        Nat.sub_sub_self (Nat.le_of_lt hlen)]
  · intro r hr hrnot s hs
    unfold CleanupExpiredKeys at hrnot hs
    by_cases hlen : keys.length ≤ MaxValidJWKKeys
    · rw [if_pos hlen] at hrnot
      exact absurd hr hrnot
    · rw [if_neg hlen] at hrnot hs
      set sorted := List.insertionSort olderKey keys with hsorted
      set n := keys.length - MaxValidJWKKeys with hn
      have hperm : sorted.Perm keys := List.perm_insertionSort _ _
      have hrtake : r ∈ sorted.take n := by
        have hrs : r ∈ sorted := hperm.mem_iff.mpr hr
        have := (List.take_append_drop n sorted) ▸ hrs
        rcases List.mem_append.mp this with h | h
        · exact h
        · exact absurd h hrnot
      have hpw : List.Pairwise olderKey sorted := List.sorted_insertionSort _ _
      have hcross : ∀ a ∈ sorted.take n, ∀ b ∈ sorted.drop n, olderKey a b := by
        have := (List.take_append_drop n sorted) ▸ hpw
        exact (List.pairwise_append.mp this).2.2
      exact hcross r hrtake s hs

/-- A concrete six-key store whose newest key is active. -/
def exKeys6 : List JWKKey :=
  [⟨"1", 1, false⟩, ⟨"2", 2, false⟩, ⟨"3", 3, false⟩,
   ⟨"4", 4, false⟩, ⟨"5", 5, false⟩, ⟨"6", 6, true⟩]

/-- Witness for C5: on a concrete six-key store whose newest key is the
active one, cleanup keeps five keys and the active key is among them. -/
theorem claim_C5_witness :
    (CleanupExpiredKeys exKeys6).length ≤ MaxValidJWKKeys ∧
    (⟨"6", 6, true⟩ : JWKKey) ∈ CleanupExpiredKeys exKeys6 :=
  ⟨(claim_C5_cleanup_retention exKeys6 ⟨"6", 6, true⟩
      (by decide) (by decide) (by decide)).1,
   (claim_C5_cleanup_retention exKeys6 ⟨"6", 6, true⟩
      (by decide) (by decide) (by decide)).2.1⟩

/-! ## JWT utilities (internal/shared/utils/jwt_key_utils.go)

Claims are `map[string]interface{}` in Go; the values that occur in this
codebase are strings and numbers (JSON round-trips numbers as float64; the
times involved are integral seconds, kept as `Nat` here). A signed token is
modelled by the key id stored in its header (`kid`), its claims, and the id
of the key pair that actually produced the signature (`signer`); signature
verification succeeds exactly when the resolved verification key is the
signing key. -/

inductive ClaimVal where
  | s (v : String)
  | n (v : Nat)
deriving DecidableEq

abbrev ClaimMap := List (String × ClaimVal)

def lookupClaim : ClaimMap → String → Option ClaimVal
  | [], _ => none
  | p :: ps, k => if p.1 = k then some p.2 else lookupClaim ps k

/-- Go map assignment `jwtClaims[k] = v`. -/
def setClaim (m : ClaimMap) (k : String) (v : ClaimVal) : ClaimMap :=
  m.filter (fun p => p.1 ≠ k) ++ [(k, v)]

structure SignedToken where
  kid : String
  claims : ClaimMap
  signer : String
deriving DecidableEq

structure JWTUtilsState where
  keys : List JWKKey
  issuer : String
deriving DecidableEq

inductive KmErr where
  | noActiveKey
  | keyNotFound
deriving DecidableEq

/-- `GetActiveKey`: scan the key map for a key with `IsActive`; fail with
"no active key found" otherwise. -/
def GetActiveKey (keys : List JWKKey) : Except KmErr JWKKey :=
  match keys.find? (fun k => k.isActive) with
  | some k => .ok k
  | none => .error .noActiveKey

/-- `GetKeyByID`: map lookup by key id. -/
def GetKeyByID (keys : List JWKKey) (kid : String) : Except KmErr JWKKey :=
  match keys.find? (fun k => k.keyID == kid) with
  | some k => .ok k
  | none => .error .keyNotFound

inductive EncErr where
  | claimsNil
  | noActiveKey
deriving DecidableEq

/-- `EncryptClaims claims expiresInHour` at clock time `now`; `none` models
a nil claims map. On success the custom claims are copied and the standard
claims `iat = now`, `exp = now + expiresInHour hours`, `iss = issuer` are
written over them; the token header carries the active key's id and the
token is signed with that key. -/
def EncryptClaims (st : JWTUtilsState) (claims : Option ClaimMap)
    (expiresInHour : Nat) (now : Nat) : Except EncErr SignedToken :=
  match claims with
  | none => .error .claimsNil
  | some cs =>
    match GetActiveKey st.keys with
    | .error _ => .error .noActiveKey
    | .ok activeKey =>
      let expiresAt := now + expiresInHour * 3600
      let jwtClaims :=
        setClaim (setClaim (setClaim cs "iat" (.n now)) "exp" (.n expiresAt))
          "iss" (.s st.issuer)
      .ok ⟨activeKey.keyID, jwtClaims, activeKey.keyID⟩

/-- Failure causes of `DecryptClaims`. In Go every parse-level failure is
wrapped into one opaque "failed to parse token" error; the constructors
record the internal cause (the distinction is used for logging only). -/
inductive DecErr where
  | keyNotFound
  | badSignature
  | tokenExpired
  | missingExp
  | invalidIssuer
deriving DecidableEq

/-- `DecryptClaims` at clock time `now`. `jwt.Parse` resolves the key by
the header's `kid` through `GetKeyByID` and verifies the signature; the
golang-jwt v5 default validator then rejects the token unless
`now < exp` whenever an `exp` claim is present. After parsing, the function
itself re-checks expiry (`time.Now().Unix() > int64(exp)`, unreachable
after the parser's stricter check but kept for fidelity), requires the
`exp` claim to exist, and requires `iss` to equal the configured issuer.
No `tokenType` check and no expected-type parameter exist anywhere in this
function. -/
def DecryptClaims (st : JWTUtilsState) (tok : SignedToken) (now : Nat) :
    Except DecErr ClaimMap :=
  match GetKeyByID st.keys tok.kid with
  | .error _ => .error .keyNotFound
  | .ok key =>
    if tok.signer ≠ key.keyID then .error .badSignature
    else
      let parseExpired :=
        match lookupClaim tok.claims "exp" with
        | some (.n e) => decide (¬ now < e)
        | _ => false
      if parseExpired then .error .tokenExpired
      else
        match lookupClaim tok.claims "exp" with
        | some (.n e) =>
          if now > e then .error .tokenExpired
          else
            match lookupClaim tok.claims "iss" with
            | some (.s iss) =>
              if iss = st.issuer then .ok tok.claims else .error .invalidIssuer
            | _ => .error .invalidIssuer
        | _ => .error .missingExp

/-! ### Claim-map lemmas -/

theorem lookupClaim_filter_ne (m : ClaimMap) (k k2 : String) (hne : k2 ≠ k) :
    lookupClaim (m.filter (fun p => p.1 ≠ k)) k2 = lookupClaim m k2 := by
  induction m with
  | nil => rfl
  | cons p ps ih =>
    simp only [List.filter_cons]
    by_cases hp : p.1 = k
    · have h2 : p.1 ≠ k2 := fun h => hne ((h ▸ hp : k2 = k))
      rw [if_neg (by simp [hp])]
      simp only [lookupClaim]
      rw [if_neg h2]
      exact ih
    · rw [if_pos (by simp [hp])]
      simp only [lookupClaim]
      by_cases hpk : p.1 = k2
      · rw [if_pos hpk, if_pos hpk]
      · rw [if_neg hpk, if_neg hpk]
        exact ih

theorem lookupClaim_append_ne (xs : ClaimMap) (k k2 : String) (v : ClaimVal)
    (hne : k2 ≠ k) : lookupClaim (xs ++ [(k, v)]) k2 = lookupClaim xs k2 := by
  induction xs with
  | nil => simp [lookupClaim, Ne.symm hne]
  | cons p ps ih =>
    by_cases hpk : p.1 = k2
    · simp [lookupClaim, hpk]
    · simp [lookupClaim, hpk, ih]

theorem lookupClaim_setClaim_same (m : ClaimMap) (k : String) (v : ClaimVal) :
    lookupClaim (setClaim m k v) k = some v := by
  unfold setClaim
  induction m with
  | nil => simp [lookupClaim]
  | cons p ps ih =>
    by_cases hp : p.1 = k
    · simpa [List.filter_cons, hp] using ih
    · simpa [List.filter_cons, hp, lookupClaim] using ih

theorem lookupClaim_setClaim_ne (m : ClaimMap) (k k2 : String) (v : ClaimVal)
    (hne : k2 ≠ k) : lookupClaim (setClaim m k v) k2 = lookupClaim m k2 := by
  unfold setClaim
  rw [lookupClaim_append_ne _ _ _ _ hne]
  exact lookupClaim_filter_ne m k k2 hne

/-- C6: when no key in the store is active, `EncryptClaims` is a hard
failure for every claims input: it never returns a token, and for every
non-nil claims map the error is exactly the no-active-key error (a nil
claims map is rejected even earlier with the claims-nil error, still never
producing a token). -/
theorem claim_C6_no_active_key_fails_closed (st : JWTUtilsState) (h now : Nat)
    (hnone : ∀ k ∈ st.keys, k.isActive = false) :
    (∀ claims tok, EncryptClaims st claims h now ≠ .ok tok) ∧
    (∀ cs, EncryptClaims st (some cs) h now = .error .noActiveKey) := by
  have hfind : st.keys.find? (fun k => k.isActive) = none := by
    rw [List.find?_eq_none]
    intro k hk
    simp [hnone k hk]
  constructor
  · intro claims tok
    cases claims with
    | none => simp [EncryptClaims]
    | some cs => simp [EncryptClaims, GetActiveKey, hfind]
  · intro cs
    simp [EncryptClaims, GetActiveKey, hfind]

/-- Witness for C6: a store holding only an inactive key rejects issuance
with the no-active-key error. -/
theorem claim_C6_witness :
    EncryptClaims ⟨[⟨"old", 0, false⟩], "go-boilerplate"⟩
      (some [("user_id", ClaimVal.s "USR1")]) 1 5
      = Except.error EncErr.noActiveKey :=
  (claim_C6_no_active_key_fails_closed ⟨[⟨"old", 0, false⟩], "go-boilerplate"⟩
    1 5 (by decide)).2 [("user_id", ClaimVal.s "USR1")]

/-- C7: token round-trip. With an active key present and a positive ttl,
issuing a token and verifying it immediately succeeds and returns every
custom claim unchanged (in particular `user_id` and `token_type`; the
standard claims `iat`, `exp`, `iss` are written by issuance itself), and
verifying the same token any time from `ttl` onwards fails with the
token-expired error. -/
theorem claim_C7_token_round_trip (st : JWTUtilsState) (cs : ClaimMap)
    (h now : Nat) (hpos : 0 < h) (hkey : ∃ k ∈ st.keys, k.isActive = true) :
    ∃ tok, EncryptClaims st (some cs) h now = .ok tok ∧
      (∃ out, DecryptClaims st tok now = .ok out ∧
        ∀ key, key ≠ "iat" → key ≠ "exp" → key ≠ "iss" →
          lookupClaim out key = lookupClaim cs key) ∧
      (∀ t, now + h * 3600 ≤ t →
        DecryptClaims st tok t = .error .tokenExpired) := by
  have hsome : (st.keys.find? (fun k => k.isActive)).isSome := by
    rw [List.find?_isSome]
    obtain ⟨k, hk, hact⟩ := hkey
    exact ⟨k, hk, by simp [hact]⟩
  obtain ⟨k, hfind⟩ := Option.isSome_iff_exists.mp hsome
  have hkmem : k ∈ st.keys := List.mem_of_find?_eq_some hfind
  have hsome2 : (st.keys.find? (fun k2 => k2.keyID == k.keyID)).isSome := by
    rw [List.find?_isSome]
    exact ⟨k, hkmem, by simp⟩
  obtain ⟨k2, hfind2⟩ := Option.isSome_iff_exists.mp hsome2
  have hk2id : k2.keyID = k.keyID := by
    have := List.find?_some hfind2
    simpa using this
  set ex : Nat := now + h * 3600 with hex
  set jwtClaims : ClaimMap :=
    setClaim (setClaim (setClaim cs "iat" (.n now)) "exp" (.n ex))
      "iss" (.s st.issuer) with hjc
  have hlexp : lookupClaim jwtClaims "exp" = some (.n ex) := by
    rw [hjc, lookupClaim_setClaim_ne _ _ _ _ (by decide), lookupClaim_setClaim_same]
  have hliss : lookupClaim jwtClaims "iss" = some (.s st.issuer) :=
    lookupClaim_setClaim_same _ _ _
  have hlt : now < ex := by
    rw [hex]
    exact Nat.lt_add_of_pos_right (Nat.mul_pos hpos (by norm_num))
  refine ⟨⟨k.keyID, jwtClaims, k.keyID⟩, ?_, ⟨jwtClaims, ?_, ?_⟩, ?_⟩
  · simp only [EncryptClaims, GetActiveKey, hfind]
  · have hnotgt : ¬ ex < now := Nat.not_lt.mpr (Nat.le_of_lt hlt)
    simp [DecryptClaims, GetKeyByID, hfind2, hk2id, hlexp, hliss, hlt, hnotgt]
  · intro key hi he hs
    rw [hjc, lookupClaim_setClaim_ne _ _ _ _ hs, lookupClaim_setClaim_ne _ _ _ _ he,
      lookupClaim_setClaim_ne _ _ _ _ hi]
  · intro t ht
    have hnotlt : ¬ t < ex := Nat.not_lt.mpr ht
    simp [DecryptClaims, GetKeyByID, hfind2, hk2id, hlexp, hnotlt]

/-- A concrete one-active-key codec state shared by the examples below. -/
def exState : JWTUtilsState := ⟨[⟨"20240101", 0, true⟩], "go-boilerplate"⟩

/-- Witness for C7: the round-trip property instantiated at a concrete
state, claim map, ttl of one hour, and clock zero. -/
theorem claim_C7_witness :
    ∃ tok, EncryptClaims exState
        (some [("user_id", ClaimVal.s "USR1"), ("token_type", ClaimVal.s "auth_token")])
        1 0 = .ok tok ∧
      (∃ out, DecryptClaims exState tok 0 = .ok out ∧
        ∀ key, key ≠ "iat" → key ≠ "exp" → key ≠ "iss" →
          lookupClaim out key = lookupClaim
            [("user_id", ClaimVal.s "USR1"), ("token_type", ClaimVal.s "auth_token")] key) ∧
      (∀ t, 0 + 1 * 3600 ≤ t →
        DecryptClaims exState tok t = .error .tokenExpired) :=
  claim_C7_token_round_trip exState
    [("user_id", ClaimVal.s "USR1"), ("token_type", ClaimVal.s "auth_token")]
    1 0 (by decide) (by decide)

/-! ## Auth service (internal/pkg/auth/service/auth_service.go) and
auth middleware (GinAuthenticate)

`User` and `Session` keep the fields the modelled flows consult; descriptive
metadata (device, geolocation), the refresh-token hash and the audit
timestamps are omitted — no modelled claim reads them. Note that the sqlc
session conversion (`convertSqlcSession`) populates exactly id, user id,
token hash, ip, device, user agent, `IsActive`, `CreatedAt` and
`ValidTill = expires_at`. -/

structure User where
  id : String
  email : String
  vendorID : String
  emailVerified : Bool
  isActive : Bool
  isDisabled : Bool
deriving DecidableEq

structure Session where
  id : String
  userID : String
  isActive : Bool
  validTill : Nat
deriving DecidableEq

structure Config where
  accessTokenExpiryHour : Nat
  refreshTokenExpiryHour : Nat
deriving DecidableEq

/-- `GenerateTokenWithType`: claims `user_id`, `email`, `vendor_id`,
`token_type`, encrypted with the given expiry; on success also returns
`expiresIn` seconds (`time.Until(expiresAt)` ≈ hours × 3600). -/
def GenerateTokenWithType (st : JWTUtilsState) (user : User) (tokenType : String)
    (expirationHours : Nat) (now : Nat) : Except EncErr (SignedToken × Nat) :=
  match EncryptClaims st
      (some [("user_id", .s user.id), ("email", .s user.email),
        ("vendor_id", .s user.vendorID), ("token_type", .s tokenType)])
      expirationHours now with
  | .error e => .error e
  | .ok tok => .ok (tok, expirationHours * 3600)

/-- `GenerateAccessToken`: token type `"auth_token"` with the access-token
expiry from config. -/
def GenerateAccessToken (st : JWTUtilsState) (cfg : Config) (user : User)
    (now : Nat) : Except EncErr (SignedToken × Nat) :=
  GenerateTokenWithType st user "auth_token" cfg.accessTokenExpiryHour now

/-- `GenerateRefreshToken`: claims `session_id`, `user_id`, `vendor_id`,
`token_type = TOKEN_TYPE.REFRESH_TOKEN = "refresh_token"`, encrypted with
the refresh-token expiry from config. -/
def GenerateRefreshToken (st : JWTUtilsState) (cfg : Config)
    (sessionID userID vendorID : String) (now : Nat) : Except EncErr SignedToken :=
  EncryptClaims st
    (some [("session_id", .s sessionID), ("user_id", .s userID),
      ("vendor_id", .s vendorID), ("token_type", .s "refresh_token")])
    cfg.refreshTokenExpiryHour now

structure TokenPair where
  accessToken : SignedToken
  refreshToken : SignedToken
  expiresIn : Nat
deriving DecidableEq

/-- `GenerateTokenPair`: access token first, then the refresh token. -/
def GenerateTokenPair (st : JWTUtilsState) (cfg : Config) (user : User)
    (sessionID : String) (now : Nat) : Except EncErr TokenPair :=
  match GenerateAccessToken st cfg user now with
  | .error e => .error e
  | .ok (a, expiresIn) =>
    match GenerateRefreshToken st cfg sessionID user.id user.vendorID now with
    | .error e => .error e
    | .ok r => .ok ⟨a, r, expiresIn⟩

inductive AuthOutcome where
  | unauthorized (msg : String)
  | authenticated (userID : String)
deriving DecidableEq

/-- `GinAuthenticate` after the `Authorization: Bearer <token>` header has
been extracted (a missing or malformed header is rejected before any token
logic runs and is not modelled). The middleware calls `DecryptClaims` —
which takes no expected-type parameter — and then only requires a string
`user_id` claim; the `token_type` claim is never consulted. -/
def GinAuthenticate (st : JWTUtilsState) (tok : SignedToken) (now : Nat) :
    AuthOutcome :=
  match DecryptClaims st tok now with
  | .error _ => .unauthorized "Invalid or expired token"
  | .ok validToken =>
    match lookupClaim validToken "user_id" with
    | some (.s uid) => .authenticated uid
    | _ => .unauthorized "Invalid user ID in token"

/-- `RevokeSession` → SQL `DeactivateAuthSession`:
`UPDATE auth_session SET is_active = FALSE WHERE id = $1` (idempotent;
there is no `revoked_at` column in this schema). -/
def RevokeSession (db : List Session) (sessionID : String) : List Session :=
  db.map (fun s => if s.id = sessionID then ⟨s.id, s.userID, false, s.validTill⟩ else s)

/-- `FindSessionByID` → SQL `GetAuthSessionByID`:
`SELECT ... FROM auth_session WHERE id = $1` — note: no `is_active` filter
(unlike `GetAuthSessionByToken`, which does filter on
`is_active = TRUE AND expires_at > NOW()`). -/
def FindSessionByID (db : List Session) (sessionID : String) : Except Unit Session :=
  match db.find? (fun s => s.id == sessionID) with
  | some s => .ok s
  | none => .error ()

inductive RTErr where
  | invalidRefreshToken
  | refreshTokenExpired
  | repoError
deriving DecidableEq

/-- `ValidateRefreshToken`: decrypt the token, require
`token_type = "refresh_token"` and a string `session_id`, fetch the session
by id, reject only when `time.Now().After(session.ValidTill)`.
The session's `IsActive` flag and revocation state are never consulted.
(`repoError` covers the session-not-found path: the repository returns a
`fmt.Errorf` value, so the service's `err == auth.ErrSessionNotFound`
comparison is false and the raw error propagates.) -/
def ValidateRefreshToken (st : JWTUtilsState) (db : List Session)
    (tok : SignedToken) (now : Nat) : Except RTErr Session :=
  match DecryptClaims st tok now with
  | .error _ => .error .invalidRefreshToken
  | .ok decoded =>
    match lookupClaim decoded "token_type" with
    | some (.s tokenType) =>
      if tokenType ≠ "refresh_token" then .error .invalidRefreshToken
      else
        match lookupClaim decoded "session_id" with
        | some (.s sessionID) =>
          match FindSessionByID db sessionID with
          | .error _ => .error .repoError
          | .ok session =>
            if now > session.validTill then .error .refreshTokenExpired
            else .ok session
        | _ => .error .invalidRefreshToken
    | _ => .error .invalidRefreshToken

inductive LoginErr where
  | validationFailed
  | invalidCredentials
  | emailNotVerified
  | tokenGenFailed
deriving DecidableEq

structure LoginResponse where
  accessToken : SignedToken
  refreshToken : SignedToken
  tokenType : String
  expiresIn : Nat
deriving DecidableEq

/-- `Login`, with the request-validation outcome, the user lookup, and the
bcrypt comparison supplied as oracles (they depend on external state), and
the session table passed explicitly. A failing `CreateSession` is only
logged ("Don't fail the login if session creation fails"): the function
still returns the token pair. The new session's validity is the hardcoded
seven days of the source. -/
def Login (st : JWTUtilsState) (cfg : Config) (validationOK : Bool)
    (findUser : Except Unit User) (bcryptOK : Bool) (sessionID : String)
    (createSessionFails : Bool) (db : List Session) (now : Nat) :
    Except LoginErr (LoginResponse × List Session) :=
  if ¬ validationOK then .error .validationFailed
  else
    match findUser with
    | .error _ => .error .invalidCredentials
    | .ok user =>
      if user.isDisabled then .error .invalidCredentials
      else if ¬ user.emailVerified then .error .emailNotVerified
      else if ¬ bcryptOK then .error .invalidCredentials
      else
        match GenerateTokenPair st cfg user sessionID now with
        | .error _ => .error .tokenGenFailed
        | .ok pair =>
          let session : Session := ⟨sessionID, user.id, true, now + 7 * 24 * 3600⟩
          let db2 := if createSessionFails then db else db ++ [session]
          .ok (⟨pair.accessToken, pair.refreshToken, "Bearer", pair.expiresIn⟩, db2)

instance exceptDecEq {ε α : Type} [DecidableEq ε] [DecidableEq α] :
    DecidableEq (Except ε α) := fun a b =>
  match a, b with
  | .error e1, .error e2 =>
    if h : e1 = e2 then isTrue (by rw [h])
    else isFalse (fun hc => by cases hc; exact h rfl)
  | .error _, .ok _ => isFalse (fun hc => by cases hc)
  | .ok _, .error _ => isFalse (fun hc => by cases hc)
  | .ok a1, .ok a2 =>
    if h : a1 = a2 then isTrue (by rw [h])
    else isFalse (fun hc => by cases hc; exact h rfl)

/-- Concrete token-expiry configuration: one-hour access tokens, 168-hour
(seven-day) refresh tokens. -/
def exCfg : Config := ⟨1, 168⟩

/-- Counterexample for C2: a validly signed, unexpired refresh token —
issued by `GenerateRefreshToken` with `token_type = "refresh_token"` —
presented to the protected-route authentication path is accepted as an
access token (the request is authenticated as the token's `user_id`),
not rejected with an invalid-token error. -/
theorem claim_C2_counterexample :
    (GenerateRefreshToken exState exCfg "SES1" "USR1" "V1" 0).map
      (fun t => GinAuthenticate exState t 10)
      = Except.ok (AuthOutcome.authenticated "USR1") := by decide

/-- C2 (amended): verification takes no expected-type parameter and the
protected-route path never consults `tokenType`: every token that
`DecryptClaims` accepts (validly signed, unexpired, configured issuer) and
that carries a string `user_id` claim — whatever its `token_type`, refresh
tokens included — authenticates the request as that user. -/
theorem claim_C2_amended_no_type_check (st : JWTUtilsState) (tok : SignedToken)
    (now : Nat) (out : ClaimMap) (uid : String)
    (hdec : DecryptClaims st tok now = .ok out)
    (huid : lookupClaim out "user_id" = some (.s uid)) :
    GinAuthenticate st tok now = .authenticated uid := by
  simp [GinAuthenticate, hdec, huid]

/-- The claim map of the concrete refresh token issued at clock 0 with the
168-hour expiry. -/
def exRefreshOut : ClaimMap :=
  setClaim (setClaim (setClaim
      [("session_id", .s "SES1"), ("user_id", .s "USR1"),
       ("vendor_id", .s "V1"), ("token_type", .s "refresh_token")]
    "iat" (.n 0)) "exp" (.n 604800)) "iss" (.s "go-boilerplate")

/-- The concrete refresh token issued by `exState`'s active key. -/
def exRefreshTok : SignedToken := ⟨"20240101", exRefreshOut, "20240101"⟩

/-- Witness for the amended C2: the concrete refresh token authenticates as
its `user_id`. -/
theorem claim_C2_witness :
    GinAuthenticate exState exRefreshTok 10 = AuthOutcome.authenticated "USR1" :=
  claim_C2_amended_no_type_check exState exRefreshTok 10 exRefreshOut "USR1"
    (by decide) (by decide)

/-- C1 is violated by the code: after `RevokeSession` (SQL
`DeactivateAuthSession`) flips `is_active = FALSE`, a refresh attempt
presenting the session's refresh token still succeeds while `validTill` has
not passed — `ValidateRefreshToken` returns the revoked session — because
`GetAuthSessionByID` has no `is_active` filter and the service checks only
`validTill`. The `ErrSessionRevoked` error defined in the domain is never
produced. First conjunct: the revocation really happened; second conjunct:
the subsequent refresh validation nevertheless returns the session. -/
theorem claim_C1_revoked_session_still_refreshes :
    RevokeSession [⟨"SES1", "USR1", true, 100000⟩] "SES1"
      = [⟨"SES1", "USR1", false, 100000⟩] ∧
    (GenerateRefreshToken exState exCfg "SES1" "USR1" "V1" 0).map
      (fun t => ValidateRefreshToken exState
        (RevokeSession [⟨"SES1", "USR1", true, 100000⟩] "SES1") t 10)
      = Except.ok (Except.ok ⟨"SES1", "USR1", false, 100000⟩) := by decide

/-- C10: login is not atomic with session persistence. When every check up
to and including the password comparison passes and token generation
succeeds, `Login` returns success with both tokens even when `CreateSession`
fails (`createSessionFails = true`): the session table is unchanged, the
returned refresh token carries the fresh `session_id`, and looking that
session up fails — a refresh token with no backing session record. -/
theorem claim_C10_login_not_atomic (st : JWTUtilsState) (cfg : Config)
    (user : User) (sessionID : String) (db : List Session) (now : Nat)
    (hdis : user.isDisabled = false) (hver : user.emailVerified = true)
    (hkey : ∃ k ∈ st.keys, k.isActive = true)
    (hfresh : ∀ s ∈ db, s.id ≠ sessionID) :
    ∃ resp, Login st cfg true (.ok user) true sessionID true db now
        = .ok (resp, db) ∧
      lookupClaim resp.refreshToken.claims "session_id" = some (.s sessionID) ∧
      FindSessionByID db sessionID = .error () := by
  have hsome : (st.keys.find? (fun k => k.isActive)).isSome := by
    rw [List.find?_isSome]
    obtain ⟨k, hk, hact⟩ := hkey
    exact ⟨k, hk, by simp [hact]⟩
  obtain ⟨k, hfind⟩ := Option.isSome_iff_exists.mp hsome
  have hfindsess : db.find? (fun s => s.id == sessionID) = none := by
    rw [List.find?_eq_none]
    intro s hs
    simpa using hfresh s hs
  simp only [Login, GenerateTokenPair, GenerateAccessToken,
    GenerateTokenWithType, GenerateRefreshToken, EncryptClaims, GetActiveKey,
    hfind, hdis, hver, Bool.not_true, Bool.false_eq_true, if_false,
    Bool.true_eq_false, ite_false, ite_true]
  refine ⟨_, rfl, ?_, ?_⟩
  · rw [lookupClaim_setClaim_ne _ _ _ _ (by decide),
      lookupClaim_setClaim_ne _ _ _ _ (by decide),
      lookupClaim_setClaim_ne _ _ _ _ (by decide)]
    simp [lookupClaim]
  · simp [FindSessionByID, hfindsess]

/-- Witness for C10: a concrete login whose session insert fails still
returns tokens, and the refresh token references a session absent from the
table. -/
theorem claim_C10_witness :
    ∃ resp, Login exState exCfg true
        (.ok ⟨"USR1", "u@example.com", "V1", true, true, false⟩) true "SES9"
        true [] 0 = .ok (resp, []) ∧
      lookupClaim resp.refreshToken.claims "session_id" = some (.s "SES9") ∧
      FindSessionByID [] "SES9" = .error () :=
  claim_C10_login_not_atomic exState exCfg
    ⟨"USR1", "u@example.com", "V1", true, true, false⟩ "SES9" [] 0
    rfl rfl (by decide) (by simp)

/-! ## Rate-limit middleware (middleware package)

The in-memory backend (`InMemoryRateLimiter`) is a mutex-guarded map from
keys to `(count, expiresAt)` entries, modelled as an association list. The
Redis backend is represented only through its failure mode (`unavailable`),
which is what the fail-open claims exercise; its success behaviour (atomic
INCR) coincides with the in-memory counter for a single process. Path
skipping and client-IP/key construction are not modelled: the composite
rate-limit key is taken as input. -/

structure RateLimitEntry where
  count : Nat
  expiresAt : Nat
deriving DecidableEq

abbrev MemStore := List (String × RateLimitEntry)

def memLookup : MemStore → String → Option RateLimitEntry
  | [], _ => none
  | p :: ps, key => if p.1 = key then some p.2 else memLookup ps key

/-- Go map assignment `m.data[key] = entry`. -/
def memSet (s : MemStore) (key : String) (e : RateLimitEntry) : MemStore :=
  s.filter (fun p => p.1 ≠ key) ++ [(key, e)]

/-- `InMemoryRateLimiter.Increment`: a missing or expired entry restarts at
count 1 with a fresh window; a live entry is incremented in place, keeping
its original `expiresAt`. -/
def InMemoryIncrement (s : MemStore) (key : String) (window now : Nat) :
    Nat × MemStore :=
  match memLookup s key with
  | none => (1, memSet s key ⟨1, now + window⟩)
  | some e =>
    if now > e.expiresAt then (1, memSet s key ⟨1, now + window⟩)
    else (e.count + 1, memSet s key ⟨e.count + 1, e.expiresAt⟩)

/-- `InMemoryRateLimiter.Get`: 0 for missing or expired entries. -/
def InMemoryGet (s : MemStore) (key : String) (now : Nat) : Nat :=
  match memLookup s key with
  | none => 0
  | some e => if now > e.expiresAt then 0 else e.count

/-- `InMemoryRateLimiter.Reset`: delete the entry. -/
def InMemoryReset (s : MemStore) (key : String) : MemStore :=
  s.filter (fun p => p.1 ≠ key)

/-- The middleware's storage backend: the in-memory limiter, or a backend
whose operations fail (Redis with the connection down). -/
inductive Storage where
  | mem (s : MemStore)
  | unavailable
deriving DecidableEq

def storageIncrement : Storage → String → Nat → Nat → Except Unit (Nat × Storage)
  | .mem s, key, window, now =>
    let r := InMemoryIncrement s key window now
    .ok (r.1, .mem r.2)
  | .unavailable, _, _, _ => .error ()

/-- `Reset`'s error (if any) is discarded by the middleware. -/
def storageReset : Storage → String → Storage
  | .mem s, key => .mem (InMemoryReset s key)
  | .unavailable, _ => .unavailable

def storageGet : Storage → String → Nat → Nat
  | .mem s, key, now => InMemoryGet s key now
  | .unavailable, _, _ => 0

structure RateLimitConfig where
  maxAttempts : Nat
  window : Nat
  skipSuccessfulRequests : Bool
  burstSize : Nat
deriving DecidableEq

structure RateLimitOptions where
  window : Nat
  limit : Nat
  burstSize : Nat
deriving DecidableEq

/-- `effectiveLimit := m.config.MaxAttempts; if m.config.BurstSize > 0 {
effectiveLimit += m.config.BurstSize }`. -/
def effectiveLimit (cfg : RateLimitConfig) : Nat :=
  cfg.maxAttempts + (if cfg.burstSize > 0 then cfg.burstSize else 0)

/-- Effective limit of `GinRateLimitWithOptions`: the dynamic limit plus the
dynamic burst, falling back to the middleware burst when the options carry
none. -/
def effectiveLimitOpts (cfg : RateLimitConfig) (opts : RateLimitOptions) : Nat :=
  opts.limit +
    (if opts.burstSize > 0 then opts.burstSize
     else if cfg.burstSize > 0 then cfg.burstSize else 0)

/-- Dynamic window of `GinRateLimitWithOptions`, falling back to the
middleware window. -/
def optsWindow (cfg : RateLimitConfig) (opts : RateLimitOptions) : Nat :=
  if opts.window > 0 then opts.window else cfg.window

inductive RLDecision where
  | denied
  | allowed (status : Nat)
deriving DecidableEq

structure RLResult where
  decision : RLDecision
  store : Storage
deriving DecidableEq

/-- One request through `GinRateLimit` on rate-limit key `key` at time
`now`, where the wrapped handler would answer with status `handlerStatus`:
increment first (on a storage error the request is allowed through —
"Allow request on storage error to avoid blocking legitimate traffic");
deny when the returned count exceeds the effective limit; in
skip-successful mode reset the counter afterwards unless the response
status is a 5xx ("Only count if request was not successful (5xx
errors)"). -/
def GinRateLimit (cfg : RateLimitConfig) (store : Storage) (key : String)
    (now handlerStatus : Nat) : RLResult :=
  match storageIncrement store key cfg.window now with
  | .error _ => ⟨.allowed handlerStatus, store⟩
  | .ok (count, store1) =>
    if count > effectiveLimit cfg then ⟨.denied, store1⟩
    else if cfg.skipSuccessfulRequests then
      if handlerStatus ≥ 500 then ⟨.allowed handlerStatus, store1⟩
      else ⟨.allowed handlerStatus, storageReset store1 key⟩
    else ⟨.allowed handlerStatus, store1⟩

/-- One request through `GinRateLimitWithOptions`: identical to
`GinRateLimit` but with the dynamic window and the dynamic effective
limit. -/
def GinRateLimitWithOptions (cfg : RateLimitConfig) (opts : RateLimitOptions)
    (store : Storage) (key : String) (now handlerStatus : Nat) : RLResult :=
  match storageIncrement store key (optsWindow cfg opts) now with
  | .error _ => ⟨.allowed handlerStatus, store⟩
  | .ok (count, store1) =>
    if count > effectiveLimitOpts cfg opts then ⟨.denied, store1⟩
    else if cfg.skipSuccessfulRequests then
      if handlerStatus ≥ 500 then ⟨.allowed handlerStatus, store1⟩
      else ⟨.allowed handlerStatus, storageReset store1 key⟩
    else ⟨.allowed handlerStatus, store1⟩

/-- Sequential requests through `GinRateLimitWithOptions` at the given
times, all answered with the same handler status; collects the
decisions. -/
def runWithOptions (cfg : RateLimitConfig) (opts : RateLimitOptions)
    (key : String) (status : Nat) : Storage → List Nat → List RLDecision × Storage
  | store, [] => ([], store)
  | store, t :: ts =>
    let r := GinRateLimitWithOptions cfg opts store key t status
    let rest := runWithOptions cfg opts key status r.store ts
    (r.decision :: rest.1, rest.2)

theorem memLookup_memSet_same (s : MemStore) (key : String) (e : RateLimitEntry) :
    memLookup (memSet s key e) key = some e := by
  unfold memSet
  induction s with
  | nil => simp [memLookup]
  | cons p ps ih =>
    by_cases hp : p.1 = key
    · simpa [List.filter_cons, hp] using ih
    · simpa [List.filter_cons, hp, memLookup] using ih

/-- The count returned by `Increment` is exactly what `Get` observes right
afterwards: the counter really was bumped before the protected operation
runs. -/
theorem InMemoryGet_after_increment (s : MemStore) (key : String)
    (window now : Nat) :
    InMemoryGet (InMemoryIncrement s key window now).2 key now
      = (InMemoryIncrement s key window now).1 := by
  unfold InMemoryIncrement
  cases hl : memLookup s key with
  | none =>
    simp [InMemoryGet, memLookup_memSet_same, Nat.not_lt.mpr (Nat.le_add_right now window)]
  | some e =>
    by_cases he : now > e.expiresAt
    · simp [he, InMemoryGet, memLookup_memSet_same,
        Nat.not_lt.mpr (Nat.le_add_right now window)]
    · simp [he, InMemoryGet, memLookup_memSet_same]

/-- C9: fail-open rate limiting. Whenever the storage backend's `Increment`
fails, the request is allowed through with the handler's own status and the
store is left untouched — a request is never denied solely because the
backend is unavailable or erroring. -/
theorem claim_C9_fail_open (cfg : RateLimitConfig) (store : Storage)
    (key : String) (now status : Nat)
    (herr : storageIncrement store key cfg.window now = .error ()) :
    (GinRateLimit cfg store key now status).decision = .allowed status ∧
    (GinRateLimit cfg store key now status).store = store := by
  simp [GinRateLimit, herr]

/-- Witness for C9: with the auth rate-limit configuration and an
unavailable backend, a concrete request is allowed. -/
theorem claim_C9_witness :
    (GinRateLimit ⟨5, 60, false, 2⟩ Storage.unavailable "k" 0 200).decision
      = RLDecision.allowed 200 ∧
    (GinRateLimit ⟨5, 60, false, 2⟩ Storage.unavailable "k" 0 200).store
      = Storage.unavailable :=
  claim_C9_fail_open ⟨5, 60, false, 2⟩ Storage.unavailable "k" 0 200 (by decide)

/-- C8: the denial decision uses effective limit = base limit + burst, and a
request is denied exactly when the count returned by `Increment` exceeds it
(first conjunct); with limit 3, a 60-second window and burst 1 (effective
limit 4), four calls on a fresh key are allowed and the fifth is denied
(second conjunct). -/
theorem claim_C8_effective_limit_denial :
    (∀ cfg opts store key now status count store1,
      storageIncrement store key (optsWindow cfg opts) now = .ok (count, store1) →
      ((GinRateLimitWithOptions cfg opts store key now status).decision = .denied
        ↔ effectiveLimitOpts cfg opts < count)) ∧
    (effectiveLimitOpts ⟨0, 60, false, 0⟩ ⟨60, 3, 1⟩ = 3 + 1 ∧
      (runWithOptions ⟨0, 60, false, 0⟩ ⟨60, 3, 1⟩ "k" 200
          (.mem []) [0, 1, 2, 3, 4]).1
        = [.allowed 200, .allowed 200, .allowed 200, .allowed 200, .denied]) := by
  constructor
  · intro cfg opts store key now status count store1 hinc
    by_cases hc : effectiveLimitOpts cfg opts < count
    · simp only [GinRateLimitWithOptions, hinc, if_pos hc]
      simpa using hc
    · simp only [GinRateLimitWithOptions, hinc, if_neg hc]
      constructor
      · intro hd
        exfalso
        revert hd
        split
        · split <;> simp
        · simp
      · intro h
        exact absurd h hc
  · exact ⟨by decide, by decide⟩

/-- Witness for C8: a key already at count 4 within the window is denied on
the next call (count 5 exceeds the effective limit 4). -/
theorem claim_C8_witness :
    (GinRateLimitWithOptions ⟨0, 60, false, 0⟩ ⟨60, 3, 1⟩
        (Storage.mem [("k", ⟨4, 60⟩)]) "k" 1 200).decision = RLDecision.denied
      ↔ effectiveLimitOpts ⟨0, 60, false, 0⟩ ⟨60, 3, 1⟩ < 5 :=
  claim_C8_effective_limit_denial.1 ⟨0, 60, false, 0⟩ ⟨60, 3, 1⟩
    (Storage.mem [("k", ⟨4, 60⟩)]) "k" 1 200 5
    (Storage.mem [("k", ⟨5, 60⟩)]) (by decide)

/-- Counterexample for C3: with the login limiter configuration
(`MaxAttempts 3`, five-minute window, skip-successful mode, burst 1), a
failed login answered with HTTP 401 does not stay counted: the middleware
resets the counter because the status is below 500, so right after the
request the counter reads 0, where the claim requires the failed attempt to
remain counted against the quota. -/
theorem claim_C3_counterexample :
    (GinRateLimit ⟨3, 300, true, 1⟩ (Storage.mem []) "k" 0 401).decision
      = RLDecision.allowed 401 ∧
    storageGet (GinRateLimit ⟨3, 300, true, 1⟩ (Storage.mem []) "k" 0 401).store
      "k" 0 = 0 := by decide

/-- C3 (amended): in skip-counting-successful-requests mode the counter is
incremented before the protected operation runs — the request's own denial
decision is taken against the already-incremented count, which `Get`
observes (last conjunct) — and afterwards the counter is reset exactly when
the response status is below 500. Only 5xx server-error outcomes stay
counted against the quota; 4xx failures such as failed logins (401) are
reset just like successes. -/
theorem claim_C3_amended_reset_below_500 (cfg : RateLimitConfig) (s : MemStore)
    (key : String) (now status count : Nat) (s1 : MemStore)
    (hskip : cfg.skipSuccessfulRequests = true)
    (hinc : InMemoryIncrement s key cfg.window now = (count, s1))
    (hallow : count ≤ effectiveLimit cfg) :
    (GinRateLimit cfg (.mem s) key now status).decision = .allowed status ∧
    (status ≥ 500 → (GinRateLimit cfg (.mem s) key now status).store = .mem s1) ∧
    (status < 500 →
      (GinRateLimit cfg (.mem s) key now status).store
        = .mem (InMemoryReset s1 key)) ∧
    InMemoryGet s1 key now = count := by
  have hget : InMemoryGet s1 key now = count := by
    have := InMemoryGet_after_increment s key cfg.window now
    rw [hinc] at this
    exact this
  have hnc : ¬ effectiveLimit cfg < count := Nat.not_lt.mpr hallow
  refine ⟨?_, ?_, ?_, hget⟩
  · simp only [GinRateLimit, storageIncrement, hinc, if_neg hnc, hskip, if_true]
    split <;> rfl
  · intro h5
    simp only [GinRateLimit, storageIncrement, hinc, if_neg hnc, hskip, if_true,
      if_pos h5]
  · intro h4
    have hn5 : ¬ status ≥ 500 := Nat.not_le.mpr h4
    simp only [GinRateLimit, storageIncrement, hinc, if_neg hnc, hskip, if_true,
      if_neg hn5]
    rfl

/-- Witness for the amended C3: a concrete 503-status request stays
counted, observed through the instantiated conjunction. -/
theorem claim_C3_witness :
    (GinRateLimit ⟨3, 300, true, 1⟩ (.mem []) "k" 0 503).decision
      = RLDecision.allowed 503 ∧
    (503 ≥ 500 → (GinRateLimit ⟨3, 300, true, 1⟩ (.mem []) "k" 0 503).store
      = .mem [("k", ⟨1, 300⟩)]) ∧
    (503 < 500 → (GinRateLimit ⟨3, 300, true, 1⟩ (.mem []) "k" 0 503).store
      = .mem (InMemoryReset [("k", ⟨1, 300⟩)] "k")) ∧
    InMemoryGet [("k", ⟨1, 300⟩)] "k" 0 = 1 :=
  claim_C3_amended_reset_below_500 ⟨3, 300, true, 1⟩ [] "k" 0 503 1
    [("k", ⟨1, 300⟩)] rfl (by decide) (by decide)

end GoAuth
